import Mathlib

/-!
Verification development for the aramjung/Chatbot repository.

The repository ships a React chat frontend (frontend/src/App.js) together
with documentation of a OneNote RAG ingestion pipeline (document import,
overlap-aware chunking, embedding generation, Chroma vector index).  The
frontend component is embedded here directly from frontend/src/App.js.  The
pipeline scripts (onenote/scripts/import_docs.py, chunk_text.py,
generate_embeddings.py, load_to_chroma.py, run_pipeline.py) are referenced by
the repository documentation but are not present under src/, so those
components are modelled from the specification, as marked on each definition.
-/

namespace Chatbot

/-! ### Frontend model (frontend/src/App.js) -/

/-- a context chunk as delivered in the chat response field context_chunks and
rendered by App.js (fields heading, source_file, text). -/
structure ContextChunk where
  heading : String
  source_file : String
  text : String
deriving DecidableEq

/-- a chat message held in the messages state of App.js: role and content are
always present; contextChunks is attached only to assistant messages built
from a successful response (it is absent, modelled as none, on user messages
and on the error reply). -/
structure Message where
  role : String
  content : String
  contextChunks : Option (List ContextChunk)
deriving DecidableEq

/-- the body of a successful POST /api/chat response as read by App.js:
response.data.message and response.data.context_chunks (the latter may be
absent, which App.js replaces with an empty list). -/
structure ChatResponse where
  message : String
  context_chunks : Option (List ContextChunk)
deriving DecidableEq

/-- outcome of the axios.post call in handleSendMessage: a successful
response, or a thrown error (network failure, non-2xx status). -/
inductive PostResult where
  | success (resp : ChatResponse)
  | failure
deriving DecidableEq

/-- the React state of the App component that handleSendMessage reads and
writes: messages, inputMessage, isLoading. -/
structure AppState where
  messages : List Message
  inputMessage : String
  isLoading : Bool
deriving DecidableEq

/-- whitespace characters recognized by JavaScript String.prototype.trim that
are relevant to chat input. -/
def isJsSpace (c : Char) : Bool :=
  c = ' ' || c = '\t' || c = '\n' || c = '\r' || c = '\x0b' || c = '\x0c'

/-- model of JavaScript String.prototype.trim as used on inputMessage in
App.js: leading and trailing whitespace removed. -/
def jsTrim (s : String) : String :=
  String.mk (((s.data.dropWhile isJsSpace).reverse.dropWhile isJsSpace).reverse)

/-- the fixed apology text App.js shows when the POST fails. -/
def errorReplyText : String :=
  "Sorry, there was an error processing your request. Please try again."

/-- the user message object built by handleSendMessage: role user, content
equal to the trimmed input. -/
def userMessageOf (input : String) : Message :=
  { role := "user", content := jsTrim input, contextChunks := none }

/-- the assistant message appended by handleSendMessage: on success it carries
response.data.message and response.data.context_chunks (defaulted to an empty
list when absent); on failure it carries the fixed apology with no context
chunks. -/
def assistantFor : PostResult → Message
  | PostResult.success resp =>
      { role := "assistant", content := resp.message,
        contextChunks := some (resp.context_chunks.getD []) }
  | PostResult.failure =>
      { role := "assistant", content := errorReplyText, contextChunks := none }

/-- state transition of handleSendMessage in App.js (lines 23-64).  The
function post stands for the axios.post call; the result pairs the new
component state with the request body sent to POST /api/chat (none when the
guard returned early and no request was sent).  The guard refuses an empty
trimmed input and a send while isLoading is true; otherwise the user message
is appended, the full history (prior messages plus the new user message) is
posted, the assistant (or error) message is appended, and isLoading is reset
to false by the finally block. -/
def handleSendMessage (s : AppState) (post : List Message → PostResult) :
    AppState × Option (List Message) :=
  if jsTrim s.inputMessage = "" || s.isLoading then (s, none)
  else
    let u := userMessageOf s.inputMessage
    let history := s.messages ++ [u]
    ({ messages := history ++ [assistantFor (post history)],
       inputMessage := "", isLoading := false },
     some history)

/-- the source text App.js displays for one context chunk (line 117):
chunk.text.substring(0, 150) followed by an ellipsis exactly when
chunk.text.length > 150. -/
def sourceTextDisplay (t : String) : String :=
  String.mk (t.data.take 150) ++ (if 150 < t.data.length then "..." else "")

/-- the triple App.js renders for one context chunk (lines 109-119): the
heading (or the placeholder Untitled Section when the heading is empty), the
source_file, and the possibly truncated source text. -/
def renderChunk (c : ContextChunk) : String × String × String :=
  ((if c.heading = "" then "Untitled Section" else c.heading),
   c.source_file, sourceTextDisplay c.text)

/-- the list of context chunk triples App.js renders under a message (lines
105-122): nothing unless the message has a non-empty contextChunks list, else
one rendered triple per chunk, in order. -/
def renderContextChunks (m : Message) : List (String × String × String) :=
  match m.contextChunks with
  | some cs => if 0 < cs.length then cs.map renderChunk else []
  | none => []

/-! ### Chunker model

Modelled from the spec: the chunker script onenote/scripts/chunk_text.py is
referenced by the repository documentation but is not under src/.  The spec
describes the algorithm as: tokenize the section body into a word sequence of
length N; produce windows starting at offsets 0, (chunk_size-overlap),
2*(chunk_size-overlap), ... until the window start is at least N; each window
covers [start, min(start+chunk_size, N)); each chunk carries the originating
heading and level and a chunk index that is globally monotonic per document.
-/

/-- Modelled from the spec: whitespace tokenization of a section body into
words (empty pieces dropped).  The fuel argument bounds the recursion and is
instantiated with the character count, which each step strictly consumes, so
the fuel never runs out. -/
def wordsAux : Nat → List Char → List (List Char)
  | _, [] => []
  | 0, _ :: _ => []
  | fuel + 1, c :: rest =>
    if c.isWhitespace then wordsAux fuel rest
    else (c :: rest.takeWhile (fun d => !d.isWhitespace)) ::
      wordsAux fuel (rest.dropWhile (fun d => !d.isWhitespace))

/-- Modelled from the spec: tokenize a section body into its word sequence. -/
def tokenize (s : String) : List String :=
  (wordsAux s.data.length s.data).map (fun cs => String.mk cs)

/-- Modelled from the spec: the window loop of the chunker.  Each iteration
emits the first chunk_size words of the remaining word list and advances by
step = chunk_size - overlap words, stopping when the remaining list is empty
(that is, when the window start has reached the word count).  The fuel
argument bounds the iteration count and is instantiated with the word count;
since each iteration drops at least one word (step is positive for a valid
configuration), the fuel never runs out. -/
def chunkAux (C step : Nat) : Nat → List α → List (List α)
  | _, [] => []
  | 0, _ :: _ => []
  | fuel + 1, w :: ws =>
      (w :: ws).take C :: chunkAux C step fuel ((w :: ws).drop step)

/-- Modelled from the spec: chunk a word list with the given chunk_size and
overlap (window starts 0, step, 2*step, ... with step = chunk_size -
overlap). -/
def chunkWords (C O : Nat) (ws : List α) : List (List α) :=
  chunkAux C (C - O) ws.length ws

/-- a section of the persisted structured document form: heading, hierarchy
level, body text. -/
structure SpecSection where
  heading : String
  level : Nat
  text : String
deriving DecidableEq

/-- an emitted chunk of the persisted chunk form: text, word_count,
chunk_num, heading, heading_level. -/
structure ChunkRec where
  text : String
  word_count : Nat
  chunk_num : Nat
  heading : String
  heading_level : Nat
deriving DecidableEq

/-- Modelled from the spec: wrap each chunk word list as a chunk record
carrying the section heading and level, numbering chunks consecutively from
the given starting index. -/
def numberChunks (sec : SpecSection) : Nat → List (List String) → List ChunkRec
  | _, [] => []
  | n, w :: ws =>
      { text := String.intercalate " " w, word_count := w.length,
        chunk_num := n, heading := sec.heading, heading_level := sec.level }
        :: numberChunks sec (n + 1) ws

/-- Modelled from the spec: chunk one section, numbering its chunks from
startNum (the document-wide running chunk index). -/
def chunkSection (C O startNum : Nat) (sec : SpecSection) : List ChunkRec :=
  numberChunks sec startNum (chunkWords C O (tokenize sec.text))

/-- Modelled from the spec: chunk a document's sections in order, with a
chunk index that is globally monotonic per document (continues across
sections, not reset). -/
def chunkSections (C O : Nat) : Nat → List SpecSection → List ChunkRec
  | _, [] => []
  | n, sec :: rest =>
      let cs := chunkSection C O n sec
      cs ++ chunkSections C O (n + cs.length) rest

/-- reassembly of a chunk list: the first chunk followed by every subsequent
chunk's non-overlapping tail (the words past the first overlap words). -/
def reassemble (O : Nat) : List (List α) → List α
  | [] => []
  | c :: cs => c ++ (cs.map (fun t => t.drop O)).flatten

/-- the 120-word body word1 word2 ... word120 of the end-to-end scenario. -/
def introBody : String :=
  String.intercalate " " ((List.range 120).map (fun i => "word" ++ toString (i + 1)))

/-- the single section ("Intro", level 0) of the end-to-end scenario. -/
def introSection : SpecSection :=
  { heading := "Intro", level := 0, text := introBody }

/-! ### VectorIndex model

Modelled from the spec: the Chroma-backed vector store
(onenote/scripts/load_to_chroma.py and the chroma_db collection) is
referenced by the repository documentation but is not under src/.  Entries
are kept in insertion order; query sorts all entries by distance to the query
vector with a stable sort (ties broken by insertion order) and returns the
first k; upsert replaces an entry with a matching identifier and appends
otherwise.  Real-valued embedding vectors are modelled over the rationals. -/

/-- a persisted index entry: stable identifier, chunk text, embedding
vector. -/
structure IndexEntry where
  id : String
  text : String
  vector : List ℚ
deriving DecidableEq

/-- Modelled from the spec: the stable identifier derived from (document
identifier, chunk index). -/
def entryId (doc : String) (chunkIndex : Nat) : String :=
  doc ++ "_" ++ toString chunkIndex

/-- the vector index: its entries, in insertion order. -/
structure VectorIndex where
  entries : List IndexEntry
deriving DecidableEq

/-- Modelled from the spec: squared L2 distance between two vectors (the
spec's smallest-distance ordering; squaring preserves the ordering). -/
def sqDist (u v : List ℚ) : ℚ :=
  (List.zipWith (fun a b => (a - b) * (a - b)) u v).sum

/-- distance comparison used to rank entries against a query vector: true
when the first entry is at least as close to the query as the second. -/
def distLE (v : List ℚ) (a b : IndexEntry) : Bool :=
  decide (sqDist v a.vector ≤ sqDist v b.vector)

/-- Modelled from the spec: query(vector, k) returns the k entries closest to
the query vector, best-first, ties broken by insertion order (stable sort),
all entries when k exceeds the collection size, and an empty sequence on an
empty collection. -/
def query (idx : VectorIndex) (v : List ℚ) (k : Nat) : List IndexEntry :=
  (idx.entries.mergeSort (distLE v)).take k

/-- whether the index already holds an entry with the given identifier. -/
def hasId (idx : VectorIndex) (i : String) : Bool :=
  idx.entries.any (fun e => e.id = i)

/-- Modelled from the spec: insert-or-replace one entry keyed by its stable
identifier (replace in place when present, append when absent). -/
def upsertOne (idx : VectorIndex) (e : IndexEntry) : VectorIndex :=
  if hasId idx e.id then
    { entries := idx.entries.map (fun x => if x.id = e.id then e else x) }
  else
    { entries := idx.entries ++ [e] }

/-- Modelled from the spec: upsert a batch of entries, one after another. -/
def upsert (idx : VectorIndex) (es : List IndexEntry) : VectorIndex :=
  es.foldl upsertOne idx

/-- Modelled from the spec: build the index entries of one document's
embedded chunks, keyed by the stable (document identifier, chunk index)
identifier, numbering chunks from the given index. -/
def docEntriesAux (doc : String) : Nat → List (String × List ℚ) → List IndexEntry
  | _, [] => []
  | i, c :: cs =>
      { id := entryId doc i, text := c.1, vector := c.2 }
        :: docEntriesAux doc (i + 1) cs

/-- Modelled from the spec: the index entries of one document's embedded
chunks (chunk text paired with its embedding vector), keyed by (document
identifier, chunk index) starting at chunk index 0. -/
def docEntries (doc : String) (cs : List (String × List ℚ)) : List IndexEntry :=
  docEntriesAux doc 0 cs

/-! ### Pipeline configuration model -/

/-- a document of the persisted structured form: source filename and parsed
sections. -/
structure SpecDocument where
  source_file : String
  sections : List SpecSection
deriving DecidableEq

/-- the diagnostic of the configuration error. -/
def configErrorMsg : String :=
  "ConfigError: chunk_size must be greater than overlap"

/-- Modelled from the spec: the pipeline run (run_pipeline.py is not under
src/).  The chunking configuration is validated at startup: chunk_size at
most overlap is a ConfigError raised before any document is parsed, chunked,
or embedded; otherwise every document's sections are chunked. -/
def runPipeline (C O : Nat) (docs : List SpecDocument) :
    Except String (List (List ChunkRec)) :=
  if C ≤ O then Except.error configErrorMsg
  else Except.ok (docs.map (fun d => chunkSections C O 0 d.sections))

/-! ### Chunker lemmas -/

theorem ceil_div_step (step N : Nat) (hs : 0 < step) (hN : 0 < N) :
    (N - step + step - 1) / step + 1 = (N + step - 1) / step := by
  by_cases h : N ≤ step
  · have e1 : N - step = 0 := by omega
    have e2 : N + step - 1 = (N - 1) + step := by omega
    rw [e1, e2, Nat.add_div_right _ hs]
    rw [Nat.div_eq_of_lt (by omega), Nat.div_eq_of_lt (by omega)]
  · have e1 : N - step + step - 1 = (N - step - 1) + step := by omega
    have e2 : N + step - 1 = ((N - step - 1) + step) + step := by omega
    rw [e1, e2, Nat.add_div_right _ hs, Nat.add_div_right _ hs, Nat.add_div_right _ hs]

theorem chunkAux_length {α : Type} (C step : Nat) (hs : 0 < step) :
    ∀ (fuel : Nat) (ws : List α), ws.length ≤ fuel →
      (chunkAux C step fuel ws).length = (ws.length + step - 1) / step := by
  intro fuel
  induction fuel with
  | zero =>
    intro ws hw
    have hws : ws = [] := List.eq_nil_of_length_eq_zero (Nat.le_zero.mp hw)
    subst hws
    simp only [chunkAux, List.length_nil]
    rw [Nat.div_eq_of_lt (by omega)]
  | succ fuel ih =>
    intro ws hw
    cases ws with
    | nil =>
      simp only [chunkAux, List.length_nil]
      rw [Nat.div_eq_of_lt (by omega)]
    | cons w t =>
      simp only [List.length_cons] at hw
      simp only [chunkAux, List.length_cons]
      rw [ih ((w :: t).drop step)
        (by simp only [List.length_drop, List.length_cons]; omega)]
      simp only [List.length_drop, List.length_cons]
      exact ceil_div_step step (t.length + 1) hs (by omega)

theorem chunkAux_sizes {α : Type} (C step : Nat) :
    ∀ (fuel : Nat) (ws : List α) (c : List α),
      c ∈ chunkAux C step fuel ws → c.length ≤ C := by
  intro fuel
  induction fuel with
  | zero =>
    intro ws c hc
    cases ws <;> simp [chunkAux] at hc
  | succ fuel ih =>
    intro ws c hc
    cases ws with
    | nil => simp [chunkAux] at hc
    | cons w t =>
      simp only [chunkAux, List.mem_cons] at hc
      rcases hc with hc | hc
      · subst hc
        exact List.length_take_le _ _
      · exact ih _ _ hc

theorem chunkAux_flatten_tails {α : Type} (C O : Nat) (hO : O < C) :
    ∀ (fuel : Nat) (ws : List α), ws.length ≤ fuel →
      ((chunkAux C (C - O) fuel ws).map (fun t => t.drop O)).flatten = ws.drop O := by
  intro fuel
  induction fuel with
  | zero =>
    intro ws hw
    have hws : ws = [] := List.eq_nil_of_length_eq_zero (Nat.le_zero.mp hw)
    subst hws
    simp [chunkAux]
  | succ fuel ih =>
    intro ws hw
    cases ws with
    | nil => simp [chunkAux]
    | cons w t =>
      simp only [List.length_cons] at hw
      simp only [chunkAux, List.map_cons, List.flatten_cons]
      rw [ih ((w :: t).drop (C - O))
        (by simp only [List.length_drop, List.length_cons]; omega)]
      rw [List.drop_take, List.drop_drop]
      have hC : C - O + O = C := by omega
      rw [hC]
      have h2 : (w :: t).drop C = ((w :: t).drop O).drop (C - O) := by
        rw [List.drop_drop]
        congr 1
        omega
      rw [h2, List.take_append_drop]

theorem chunkWords_length_eq {α : Type} (C O : Nat) (h : O < C) (ws : List α) :
    (chunkWords C O ws).length = (ws.length + (C - O) - 1) / (C - O) :=
  chunkAux_length C (C - O) (by omega) ws.length ws (Nat.le_refl _)

theorem reassemble_chunkWords {α : Type} (C O : Nat) (h : O < C) (ws : List α) :
    reassemble O (chunkWords C O ws) = ws := by
  cases ws with
  | nil => rfl
  | cons w t =>
    rw [chunkWords]
    simp only [List.length_cons, chunkAux, reassemble]
    rw [chunkAux_flatten_tails C O h t.length ((w :: t).drop (C - O))
      (by simp only [List.length_drop, List.length_cons]; omega)]
    rw [List.drop_drop]
    have hC : C - O + O = C := by omega
    rw [hC, List.take_append_drop]

theorem numberChunks_length (sec : SpecSection) (n : Nat) (ws : List (List String)) :
    (numberChunks sec n ws).length = ws.length := by
  induction ws generalizing n with
  | nil => rfl
  | cons w t ih => simp only [numberChunks, List.length_cons, ih]

theorem numberChunks_word_counts (sec : SpecSection) (n : Nat) (ws : List (List String)) :
    (numberChunks sec n ws).map (fun c => c.word_count) = ws.map List.length := by
  induction ws generalizing n with
  | nil => rfl
  | cons w t ih => simp only [numberChunks, List.map_cons, ih]

/-! ### Claims about the chunker -/

/-- C2 counterexample: with chunk_size 2, overlap 1 and a section body of a
single word, the chunker emits one chunk, but the claimed count
ceil(max(N-O,0)/(C-O)) evaluates to zero. -/
theorem chunk_count_claim_cex :
    (tokenize "a").length = 1
    ∧ (chunkSection 2 1 0 { heading := "H", level := 0, text := "a" }).length = 1
    ∧ (max ((tokenize "a").length - 1) 0 + (2 - 1) - 1) / (2 - 1) = 0
    ∧ (chunkSection 2 1 0 { heading := "H", level := 0, text := "a" }).length
        ≠ (max ((tokenize "a").length - 1) 0 + (2 - 1) - 1) / (2 - 1) := by
  decide

/-- C2 (amended): for all chunk_size C and overlap O with 0 ≤ O < C, chunking
a section whose body tokenizes to N words yields exactly ceil(N/(C-O)) chunks
(zero chunks when N = 0), and every emitted chunk has word_count ≤ C. -/
theorem chunk_count_amended (C O : Nat) (h : O < C) (startNum : Nat) (sec : SpecSection) :
    (chunkSection C O startNum sec).length
      = ((tokenize sec.text).length + (C - O) - 1) / (C - O)
    ∧ ∀ c ∈ chunkSection C O startNum sec, c.word_count ≤ C := by
  constructor
  · rw [chunkSection, numberChunks_length, chunkWords_length_eq C O h]
  · intro c hc
    have h1 : c.word_count ∈ (chunkSection C O startNum sec).map (fun c => c.word_count) :=
      List.mem_map_of_mem _ hc
    rw [chunkSection, numberChunks_word_counts] at h1
    rcases List.mem_map.mp h1 with ⟨w, hwmem, hwlen⟩
    rw [← hwlen]
    exact chunkAux_sizes C (C - O) _ _ w hwmem

/-- witness for the amended C2 at chunk_size 50, overlap 10 and a three-word
section body. -/
theorem chunk_count_amended_witness :
    10 < 50
    ∧ ((chunkSection 50 10 0 { heading := "H", level := 0, text := "a b c" }).length
          = ((tokenize "a b c").length + (50 - 10) - 1) / (50 - 10)
        ∧ ∀ c ∈ chunkSection 50 10 0 { heading := "H", level := 0, text := "a b c" },
            c.word_count ≤ 50) :=
  ⟨by decide, chunk_count_amended 50 10 (by decide) 0 { heading := "H", level := 0, text := "a b c" }⟩

/-- C4: for all chunk_size C and overlap O with 0 ≤ O < C and every word
sequence, concatenating the first chunk with each subsequent chunk's
non-overlapping tail (the words past the first O) reconstructs the original
word sequence exactly. -/
theorem chunk_reassembly_round_trip (C O : Nat) (h : O < C) (ws : List String) :
    reassemble O (chunkWords C O ws) = ws :=
  reassemble_chunkWords C O h ws

/-- witness for C4 at chunk_size 3, overlap 1 and a four-word sequence. -/
theorem chunk_reassembly_round_trip_witness :
    1 < 3 ∧ reassemble 1 (chunkWords 3 1 ["a", "b", "c", "d"]) = ["a", "b", "c", "d"] :=
  ⟨by decide, chunk_reassembly_round_trip 3 1 (by decide) ["a", "b", "c", "d"]⟩

set_option maxRecDepth 40000 in
/-- C3 counterexample: for the single-section document ("Intro", level 0)
whose body is the 120 words word1 ... word120, chunk_size 50 and overlap 10
produce chunks of word counts [50, 50, 40] (window starts 0, 40, 80), not the
claimed [50, 50, 20]. -/
theorem intro_scenario_cex :
    (chunkSections 50 10 0 [introSection]).map (fun c => c.word_count) = [50, 50, 40]
    ∧ (chunkSections 50 10 0 [introSection]).map (fun c => c.word_count) ≠ [50, 50, 20] := by
  have h : (chunkSections 50 10 0 [introSection]).map (fun c => c.word_count)
      = [50, 50, 40] := by decide
  exact ⟨h, by rw [h]; decide⟩

set_option maxRecDepth 40000 in
/-- C3 (amended): for the single-section document ("Intro", level 0) whose
body is the 120 words word1 ... word120, chunking with chunk_size 50 and
overlap 10 yields exactly 3 chunks whose word counts are [50, 50, 40], whose
chunk_num values are [0, 1, 2], each carrying heading Intro and level 0. -/
theorem intro_scenario_amended :
    (chunkSections 50 10 0 [introSection]).map (fun c => c.word_count) = [50, 50, 40]
    ∧ (chunkSections 50 10 0 [introSection]).map (fun c => c.chunk_num) = [0, 1, 2]
    ∧ (chunkSections 50 10 0 [introSection]).map (fun c => c.heading)
        = ["Intro", "Intro", "Intro"]
    ∧ (chunkSections 50 10 0 [introSection]).map (fun c => c.heading_level) = [0, 0, 0] := by
  refine ⟨by decide, by decide, by decide, by decide⟩

/-! ### Claims about the frontend -/

/-- C1: for every chat turn, the frontend's request to POST /api/chat carries
the full prior conversation as an ordered sequence of role/content objects
with the new user message appended last, and the displayed assistant turn
consists of the response's reply text plus its ordered sequence of context
chunks, each rendered with its heading, source_file, and text. -/
theorem chat_turn_contract (s : AppState) (resp : ChatResponse)
    (h1 : jsTrim s.inputMessage ≠ "") (h2 : s.isLoading = false) :
    handleSendMessage s (fun _ => PostResult.success resp)
      = ({ messages := s.messages
            ++ [userMessageOf s.inputMessage, assistantFor (PostResult.success resp)],
           inputMessage := "", isLoading := false },
         some (s.messages ++ [userMessageOf s.inputMessage]))
    ∧ (assistantFor (PostResult.success resp)).content = resp.message
    ∧ renderContextChunks (assistantFor (PostResult.success resp))
        = (resp.context_chunks.getD []).map renderChunk := by
  refine ⟨?_, rfl, ?_⟩
  · simp [handleSendMessage, h1, h2]
  · simp only [assistantFor, renderContextChunks]
    cases hcs : resp.context_chunks.getD [] with
    | nil => simp
    | cons c cs => simp

/-- witness for C1: a first turn with input hi and a response carrying one
context chunk. -/
theorem chat_turn_contract_witness :
    jsTrim "hi" ≠ ""
    ∧ (handleSendMessage { messages := [], inputMessage := "hi", isLoading := false }
          (fun _ => PostResult.success
            { message := "hello",
              context_chunks := some [{ heading := "H", source_file := "n.docx", text := "body" }] })
        = ({ messages := []
              ++ [userMessageOf "hi",
                  assistantFor (PostResult.success
                    { message := "hello",
                      context_chunks := some [{ heading := "H", source_file := "n.docx", text := "body" }] })],
             inputMessage := "", isLoading := false },
           some ([] ++ [userMessageOf "hi"]))
      ∧ (assistantFor (PostResult.success
            { message := "hello",
              context_chunks := some [{ heading := "H", source_file := "n.docx", text := "body" }] })).content
          = "hello"
      ∧ renderContextChunks (assistantFor (PostResult.success
            { message := "hello",
              context_chunks := some [{ heading := "H", source_file := "n.docx", text := "body" }] }))
          = (Option.getD (some [{ heading := "H", source_file := "n.docx", text := "body" }]) []).map renderChunk) :=
  ⟨by decide,
    chat_turn_contract { messages := [], inputMessage := "hi", isLoading := false }
      { message := "hello",
        context_chunks := some [{ heading := "H", source_file := "n.docx", text := "body" }] }
      (by decide) rfl⟩

/-- C8: the frontend never issues a chat request for an empty or
whitespace-only input, and never while a previous request is in flight: when
the trimmed input is empty or isLoading is true, handleSendMessage returns
with the state unchanged and no request posted; consequently every user
message newly appended to the conversation has as content the non-empty
trimmed input. -/
theorem frontend_guard_invariant (s : AppState) (post : List Message → PostResult) :
    ((jsTrim s.inputMessage = "" ∨ s.isLoading = true) →
      handleSendMessage s post = (s, none))
    ∧ ∀ m ∈ (handleSendMessage s post).1.messages,
        m.role = "user" → m ∉ s.messages →
        m.content = jsTrim s.inputMessage ∧ jsTrim s.inputMessage ≠ "" := by
  by_cases hg : jsTrim s.inputMessage = "" ∨ s.isLoading = true
  · have he : handleSendMessage s post = (s, none) := by
      rcases hg with h | h
      · simp [handleSendMessage, h]
      · simp [handleSendMessage, h]
    refine ⟨fun _ => he, ?_⟩
    rw [he]
    intro m hm _ hnot
    exact absurd hm hnot
  · have hg2 := hg
    push_neg at hg2
    obtain ⟨h1, h2⟩ := hg2
    have h2b : s.isLoading = false := by
      cases hl : s.isLoading
      · rfl
      · exact absurd hl h2
    have he : handleSendMessage s post
        = ({ messages := (s.messages ++ [userMessageOf s.inputMessage])
              ++ [assistantFor (post (s.messages ++ [userMessageOf s.inputMessage]))],
             inputMessage := "", isLoading := false },
           some (s.messages ++ [userMessageOf s.inputMessage])) := by
      simp [handleSendMessage, h1, h2b]
    refine ⟨fun hcon => absurd hcon hg, ?_⟩
    rw [he]
    intro m hm hrole hnot
    simp only [List.append_assoc, List.singleton_append, List.mem_append,
      List.mem_cons, List.mem_singleton, List.not_mem_nil, or_false] at hm
    rcases hm with hm | hm | hm
    · exact absurd hm hnot
    · subst hm
      exact ⟨rfl, h1⟩
    · subst hm
      exfalso
      have hrr : (assistantFor (post (s.messages ++ [userMessageOf s.inputMessage]))).role
          = "assistant" := by
        cases post (s.messages ++ [userMessageOf s.inputMessage]) <;> rfl
      rw [hrr] at hrole
      exact absurd hrole (by decide)

/-- witness for C8: a whitespace-only input posts nothing and leaves the
state unchanged. -/
theorem frontend_guard_invariant_witness :
    handleSendMessage { messages := [], inputMessage := "   ", isLoading := false }
        (fun _ => PostResult.failure)
      = ({ messages := [], inputMessage := "   ", isLoading := false }, none) :=
  (frontend_guard_invariant { messages := [], inputMessage := "   ", isLoading := false }
      (fun _ => PostResult.failure)).1 (Or.inl (by decide))

/-- C9: every send attempt, whether the POST succeeds or throws, appends
exactly one assistant message after the user message (on failure, the fixed
apology text with no context chunks) and ends with isLoading reset to
false. -/
theorem send_appends_one_assistant (s : AppState) (post : List Message → PostResult)
    (h1 : jsTrim s.inputMessage ≠ "") (h2 : s.isLoading = false) :
    (handleSendMessage s post).1.messages
      = s.messages
          ++ [userMessageOf s.inputMessage,
              assistantFor (post (s.messages ++ [userMessageOf s.inputMessage]))]
    ∧ (handleSendMessage s post).1.isLoading = false
    ∧ (∀ p : PostResult, (assistantFor p).role = "assistant")
    ∧ assistantFor PostResult.failure
        = { role := "assistant", content := errorReplyText, contextChunks := none } := by
  refine ⟨by simp [handleSendMessage, h1, h2], by simp [handleSendMessage, h1, h2],
    ?_, rfl⟩
  intro p
  cases p <;> rfl

/-- witness for C9: a failing POST on input hi still appends the user
message, the apology reply, and resets isLoading. -/
theorem send_appends_one_assistant_witness :
    jsTrim "hi" ≠ ""
    ∧ ((handleSendMessage { messages := [], inputMessage := "hi", isLoading := false }
            (fun _ => PostResult.failure)).1.messages
          = [] ++ [userMessageOf "hi",
              assistantFor ((fun _ => PostResult.failure) ([] ++ [userMessageOf "hi"]))]
        ∧ (handleSendMessage { messages := [], inputMessage := "hi", isLoading := false }
            (fun _ => PostResult.failure)).1.isLoading = false
        ∧ (∀ p : PostResult, (assistantFor p).role = "assistant")
        ∧ assistantFor PostResult.failure
            = { role := "assistant", content := errorReplyText, contextChunks := none }) :=
  ⟨by decide,
    send_appends_one_assistant { messages := [], inputMessage := "hi", isLoading := false }
      (fun _ => PostResult.failure) (by decide) rfl⟩

/-- C10: the source text shown for a context chunk is the first 150
characters of the chunk's text, with an ellipsis appended if and only if the
text is longer than 150 characters; a text of at most 150 characters is shown
in full with no ellipsis. -/
theorem source_text_truncation (t : String) :
    (t.data.length ≤ 150 → sourceTextDisplay t = t)
    ∧ (150 < t.data.length →
        sourceTextDisplay t = String.mk (t.data.take 150) ++ "...") := by
  constructor
  · intro h
    rw [sourceTextDisplay, if_neg (by omega), List.take_of_length_le h]
    calc String.mk t.data ++ "" = String.mk (t.data ++ []) := rfl
      _ = String.mk t.data := by rw [List.append_nil]
      _ = t := rfl
  · intro h
    rw [sourceTextDisplay, if_pos h]

/-- witness for C10: a short chunk text is displayed unchanged. -/
theorem source_text_truncation_witness :
    "abc".data.length ≤ 150 ∧ sourceTextDisplay "abc" = "abc" :=
  ⟨by decide, (source_text_truncation "abc").1 (by decide)⟩

/-! ### VectorIndex lemmas -/

theorem hasId_iff (idx : VectorIndex) (i : String) :
    hasId idx i = true ↔ i ∈ idx.entries.map (fun x => x.id) := by
  rw [hasId, List.any_eq_true]
  constructor
  · rintro ⟨e, he, hid⟩
    exact List.mem_map.mpr ⟨e, he, of_decide_eq_true hid⟩
  · intro hmem
    rcases List.mem_map.mp hmem with ⟨e, he, hid⟩
    exact ⟨e, he, decide_eq_true hid⟩

theorem upsertOne_present (idx : VectorIndex) (e : IndexEntry)
    (h : hasId idx e.id = true) :
    (upsertOne idx e).entries.map (fun x => x.id) = idx.entries.map (fun x => x.id)
    ∧ (upsertOne idx e).entries.length = idx.entries.length := by
  rw [upsertOne, if_pos h]
  constructor
  · rw [List.map_map]
    apply List.map_congr_left
    intro x _
    by_cases hxe : x.id = e.id
    · simp [Function.comp, hxe]
    · simp [Function.comp, hxe]
  · rw [List.length_map]

theorem upsert_present_keeps :
    ∀ (es : List IndexEntry) (idx : VectorIndex),
      (∀ e ∈ es, hasId idx e.id = true) →
      (upsert idx es).entries.length = idx.entries.length := by
  intro es
  induction es with
  | nil => intro idx _; rfl
  | cons e rest ih =>
    intro idx h
    have hstep : upsert idx (e :: rest) = upsert (upsertOne idx e) rest := rfl
    rw [hstep]
    have he := h e (List.mem_cons_self e rest)
    have hids := upsertOne_present idx e he
    have hrest : ∀ x ∈ rest, hasId (upsertOne idx e) x.id = true := by
      intro x hx
      rw [hasId_iff, hids.1, ← hasId_iff]
      exact h x (List.mem_cons_of_mem e hx)
    rw [ih (upsertOne idx e) hrest, hids.2]

/-! ### Claims about the VectorIndex and pipeline -/

/-- C5: for every vector v and every k at least the number of entries in the
collection (including an empty collection), query(v, k) returns all entries
ordered best-first as a normal result; the empty collection yields an empty
sequence, never an error. -/
theorem query_large_k_returns_all (idx : VectorIndex) (v : List ℚ) (k : Nat)
    (h : idx.entries.length ≤ k) :
    (query idx v k).Perm idx.entries
    ∧ List.Pairwise (fun a b => sqDist v a.vector ≤ sqDist v b.vector) (query idx v k)
    ∧ (idx.entries = [] → query idx v k = []) := by
  have hq : query idx v k = idx.entries.mergeSort (distLE v) := by
    rw [query]
    exact List.take_of_length_le (by rw [List.length_mergeSort]; exact h)
  refine ⟨?_, ?_, ?_⟩
  · rw [hq]
    exact List.mergeSort_perm idx.entries (distLE v)
  · rw [hq]
    have htrans : ∀ (a b c : IndexEntry), distLE v a b → distLE v b c → distLE v a c := by
      intro a b c hab hbc
      simp only [distLE, decide_eq_true_eq] at hab hbc ⊢
      exact le_trans hab hbc
    have htotal : ∀ (a b : IndexEntry), distLE v a b || distLE v b a := by
      intro a b
      simp only [distLE, Bool.or_eq_true, decide_eq_true_eq]
      exact le_total _ _
    have hs := List.sorted_mergeSort htrans htotal idx.entries
    exact hs.imp (fun hab => by simpa [distLE] using hab)
  · intro he
    rw [hq, he, List.mergeSort_nil]

/-- witness for C5: a one-entry index queried with k = 2. -/
theorem query_large_k_returns_all_witness :
    ({ entries := [{ id := "d_0", text := "t", vector := [1] }] } : VectorIndex).entries.length ≤ 2
    ∧ ((query { entries := [{ id := "d_0", text := "t", vector := [1] }] } [0] 2).Perm
          ({ entries := [{ id := "d_0", text := "t", vector := [1] }] } : VectorIndex).entries
        ∧ List.Pairwise (fun a b => sqDist [0] a.vector ≤ sqDist [0] b.vector)
            (query { entries := [{ id := "d_0", text := "t", vector := [1] }] } [0] 2)
        ∧ (({ entries := [{ id := "d_0", text := "t", vector := [1] }] } : VectorIndex).entries = []
            → query { entries := [{ id := "d_0", text := "t", vector := [1] }] } [0] 2 = [])) :=
  ⟨by decide,
    query_large_k_returns_all { entries := [{ id := "d_0", text := "t", vector := [1] }] }
      [0] 2 (by decide)⟩

/-- C6: upsert is idempotent under identical identifiers: re-ingesting a
document whose entries, keyed by (document identifier, chunk index), are all
already present leaves the index's entry count unchanged (entries are
overwritten, never duplicated). -/
theorem reingest_unchanged_document (idx : VectorIndex) (doc : String)
    (cs : List (String × List ℚ))
    (h : ∀ e ∈ docEntries doc cs, hasId idx e.id = true) :
    (upsert idx (docEntries doc cs)).entries.length = idx.entries.length :=
  upsert_present_keeps (docEntries doc cs) idx h

/-- witness for C6: re-ingesting a one-chunk document already present under
the key notes.docx_0 keeps the entry count at one. -/
theorem reingest_unchanged_document_witness :
    (∀ e ∈ docEntries "notes.docx" [("alpha", [1])],
        hasId { entries := [{ id := "notes.docx_0", text := "alpha", vector := [1] }] } e.id = true)
    ∧ (upsert { entries := [{ id := "notes.docx_0", text := "alpha", vector := [1] }] }
          (docEntries "notes.docx" [("alpha", [1])])).entries.length
        = ({ entries := [{ id := "notes.docx_0", text := "alpha", vector := [1] }] } : VectorIndex).entries.length :=
  ⟨by decide,
    reingest_unchanged_document
      { entries := [{ id := "notes.docx_0", text := "alpha", vector := [1] }] }
      "notes.docx" [("alpha", [1])] (by decide)⟩

/-- C7: for every configuration with chunk_size ≤ overlap the pipeline fails
with ConfigError before any processing begins (the same error for every
document batch, so no document is parsed, chunked, or embedded), while an
empty section body is not an error and yields zero chunks. -/
theorem config_error_before_processing (C O : Nat) (docs : List SpecDocument)
    (h : C ≤ O) :
    runPipeline C O docs = Except.error configErrorMsg
    ∧ ∀ (n : Nat) (sec : SpecSection), sec.text = "" → chunkSection C O n sec = [] := by
  constructor
  · rw [runPipeline, if_pos h]
  · intro n sec hsec
    rw [chunkSection, hsec]
    have ht : tokenize "" = [] := rfl
    rw [ht]
    have hcw : chunkWords C O ([] : List String) = [] := by simp [chunkWords, chunkAux]
    rw [hcw]
    simp [numberChunks]

/-- witness for C7: chunk_size 1 with overlap 1 is rejected, and the empty
section body yields zero chunks. -/
theorem config_error_before_processing_witness :
    1 ≤ 1
    ∧ (runPipeline 1 1 [] = Except.error configErrorMsg
        ∧ ∀ (n : Nat) (sec : SpecSection), sec.text = "" → chunkSection 1 1 n sec = []) :=
  ⟨by decide, config_error_before_processing 1 1 [] (by decide)⟩

end Chatbot
